import Mathlib

/-!
# Verification of the Lens Expression Composer

Shallow embedding of the expression-composition helpers
(`prependDatasourceExpression`, `prependKibanaContext`, `buildExpression`)
of the Kibana Lens editor-frame (source file `expression_helpers.ts`,
given as `src/unnamed/part_001`), together with proofs of the testable
properties stated in the repository specification.

Modelling conventions:
* The interpreter AST type `Ast` from `kbn-interpreter` is an expression
  chain of function nodes; the constant tags `type: "expression"` and
  `type: "function"` carry no information and are dropped.  Argument
  values produced by this component are strings or sub-expressions, so
  the argument-value type has exactly those two constructors.
* The TypeScript union `Ast | string | null` becomes
  `Option AstOrString`; `null`/`undefined` is `none`.
* `Record<string, T>` keyed by data-source identifiers becomes an
  insertion-ordered association list `List (String × T)`;
  `Object.entries` iterates it in that order, and JavaScript property
  access `r[k]` is `List.lookup k r` (yielding `none` where JavaScript
  yields `undefined`).
* The external parser `fromExpression` (out of scope per the spec) is an
  explicit function parameter of every operation that delegates to it.
* JavaScript property access on a possibly-`undefined` value can throw a
  `TypeError`; fallible code therefore returns `Except String _`, the
  error carrying the thrown message.
* `JSON.stringify` and its `JSON.parse` counterpart used by the tests
  are modelled over an explicit JSON value type (see `Json` below);
  numeric JSON leaves are IEEE-754 doubles in JavaScript and are outside
  this embedding.
-/

/-! ## The interpreter AST (`Ast` of `kbn-interpreter`) -/

mutual

/-- An argument value of a function node: a string literal or a
sub-expression.  (The interpreter also allows numbers and booleans, but
the composer never produces them.) -/
inductive AstArg where
  | str (value : String)
  | ast (value : Ast)

/-- A function-call node: function name plus a mapping from argument
name to an ordered sequence of argument values
(`ExpressionFunctionAST`). -/
inductive ExpressionFunctionAST where
  | mk (function : String) (arguments : List (String × List AstArg))

/-- An expression tree: an ordered chain of function-call nodes. -/
inductive Ast where
  | mk (chain : List ExpressionFunctionAST)

end

/-- Function name of a node. -/
def ExpressionFunctionAST.function : ExpressionFunctionAST → String
  | .mk f _ => f

/-- Argument map of a node. -/
def ExpressionFunctionAST.arguments : ExpressionFunctionAST → List (String × List AstArg)
  | .mk _ a => a

/-- Chain of an expression tree. -/
def Ast.chain : Ast → List ExpressionFunctionAST
  | .mk c => c

/-- A value of the TypeScript union `Ast | string`. -/
inductive AstOrString where
  | ast (value : Ast)
  | str (value : String)

/-- JavaScript truthiness of an `Ast | string` value: an object is
always truthy, a string is truthy iff non-empty.  (`null`/`undefined`,
i.e. `none` at the `Option` level, is falsy.) -/
def AstOrString.isFalsy : AstOrString → Bool
  | .ast _ => false
  | .str s => s.isEmpty

/-- The idiom `typeof expr === "string" ? fromExpression(expr) : expr`
of the source. -/
def AstOrString.toAst (fromExpression : String → Ast) : AstOrString → Ast
  | .ast a => a
  | .str s => fromExpression s

/-! ## JSON values and `JSON.stringify`

`prependKibanaContext` serializes its context parameters with
`JSON.stringify`.  The spec's round-trip property additionally needs the
`JSON.parse` counterpart used by the test routine.  Both are modelled
here over an explicit JSON value type.  JSON numbers are IEEE-754
doubles in JavaScript and are not modelled. -/

mutual

/-- A JSON value (numeric leaves excluded, see module comment). -/
inductive Json where
  | null
  | bool (b : Bool)
  | str (s : String)
  | arr (elems : JsonList)
  | obj (fields : JsonFields)

/-- A JSON array body. -/
inductive JsonList where
  | nil
  | cons (head : Json) (tail : JsonList)

/-- A JSON object body: ordered key/value fields. -/
inductive JsonFields where
  | nil
  | cons (key : String) (value : Json) (tail : JsonFields)

end

/-- Lower-case hexadecimal digit, as emitted by `JSON.stringify` in
`\u00xx` escapes. -/
def hexDigitChar (n : Nat) : Char :=
  if n < 10 then Char.ofNat (48 + n) else Char.ofNat (87 + n)

/-- The escape `JSON.stringify` applies to one character of a string:
quote and backslash get a backslash escape, the named control characters
get their short escapes, the remaining control characters get `\u00xx`,
everything else is emitted verbatim. -/
def escapeChar (c : Char) : List Char :=
  if c = '"' then ['\\', '"']
  else if c = '\\' then ['\\', '\\']
  else if c = Char.ofNat 8 then ['\\', 'b']
  else if c = Char.ofNat 9 then ['\\', 't']
  else if c = Char.ofNat 10 then ['\\', 'n']
  else if c = Char.ofNat 12 then ['\\', 'f']
  else if c = Char.ofNat 13 then ['\\', 'r']
  else if c.toNat < 32 then
    ['\\', 'u', '0', '0', hexDigitChar (c.toNat / 16), hexDigitChar (c.toNat % 16)]
  else [c]

/-- Escape every character of a string body. -/
def escapeString : List Char → List Char
  | [] => []
  | c :: cs => escapeChar c ++ escapeString cs

/-- A JSON string literal: quoted, escaped body. -/
def quoteChars (s : String) : List Char :=
  '"' :: (escapeString s.data ++ ['"'])

mutual

/-- Characters of the canonical (`JSON.stringify`, no whitespace)
serialization of a JSON value. -/
def Json.chars : Json → List Char
  | .str s => quoteChars s
  | .arr es => '[' :: JsonList.chars es
  | .obj fs => '{' :: JsonFields.chars fs
  | .null => ['n', 'u', 'l', 'l']
  | .bool false => ['f', 'a', 'l', 's', 'e']
  | .bool true => ['t', 'r', 'u', 'e']

/-- Serialization of an array body including the closing bracket. -/
def JsonList.chars : JsonList → List Char
  | .nil => [']']
  | .cons j tl => Json.chars j ++ JsonList.tailChars tl

/-- Serialization of the remainder of an array body after the first
element. -/
def JsonList.tailChars : JsonList → List Char
  | .nil => [']']
  | .cons j tl => ',' :: (Json.chars j ++ JsonList.tailChars tl)

/-- Serialization of an object body including the closing brace. -/
def JsonFields.chars : JsonFields → List Char
  | .nil => ['}']
  | .cons k v tl => quoteChars k ++ (':' :: (Json.chars v ++ JsonFields.tailChars tl))

/-- Serialization of the remainder of an object body after the first
field. -/
def JsonFields.tailChars : JsonFields → List Char
  | .nil => ['}']
  | .cons k v tl => ',' :: (quoteChars k ++ (':' :: (Json.chars v ++ JsonFields.tailChars tl)))

end

/-- `JSON.stringify` on the modelled JSON values. -/
def Json.stringify (j : Json) : String :=
  String.mk j.chars

/-! ## The `JSON.parse` counterpart

Recursive-descent reader of the canonical serialization above, as used
by the test routine to parse the serialized context arguments back into
structured data.  The recursion budget (`fuel`) only serves
termination; the round-trip theorems below show any budget at least the
serialized size suffices. -/

/-- Value of one hexadecimal digit. -/
def hexVal (c : Char) : Option Nat :=
  if 48 ≤ c.toNat ∧ c.toNat ≤ 57 then some (c.toNat - 48)
  else if 97 ≤ c.toNat ∧ c.toNat ≤ 102 then some (c.toNat - 87)
  else if 65 ≤ c.toNat ∧ c.toNat ≤ 70 then some (c.toNat - 55)
  else none

/-- Read a string body up to the closing quote, undoing the escapes;
returns the body and the remaining input. -/
def parseStringBody : List Char → Option (List Char × List Char)
  | [] => none
  | c :: rest =>
    if c = '"' then some ([], rest)
    else if c = '\\' then
      match rest with
      | [] => none
      | e :: rest₁ =>
        if e = '"' then (parseStringBody rest₁).map fun p => ('"' :: p.1, p.2)
        else if e = '\\' then (parseStringBody rest₁).map fun p => ('\\' :: p.1, p.2)
        else if e = '/' then (parseStringBody rest₁).map fun p => ('/' :: p.1, p.2)
        else if e = 'b' then (parseStringBody rest₁).map fun p => (Char.ofNat 8 :: p.1, p.2)
        else if e = 't' then (parseStringBody rest₁).map fun p => (Char.ofNat 9 :: p.1, p.2)
        else if e = 'n' then (parseStringBody rest₁).map fun p => (Char.ofNat 10 :: p.1, p.2)
        else if e = 'f' then (parseStringBody rest₁).map fun p => (Char.ofNat 12 :: p.1, p.2)
        else if e = 'r' then (parseStringBody rest₁).map fun p => (Char.ofNat 13 :: p.1, p.2)
        else if e = 'u' then
          match rest₁ with
          | h₁ :: h₂ :: h₃ :: h₄ :: rest₂ =>
            match hexVal h₁, hexVal h₂, hexVal h₃, hexVal h₄ with
            | some a, some b, some c₃, some d =>
              (parseStringBody rest₂).map fun p =>
                (Char.ofNat (4096 * a + 256 * b + 16 * c₃ + d) :: p.1, p.2)
            | _, _, _, _ => none
          | _ => none
        else none
    else (parseStringBody rest).map fun p => (c :: p.1, p.2)

mutual

/-- Read one JSON value. -/
def parseJson : Nat → List Char → Option (Json × List Char)
  | 0, _ => none
  | _ + 1, [] => none
  | fuel + 1, c :: rest =>
    if c = 'n' then
      match rest with
      | 'u' :: 'l' :: 'l' :: r => some (.null, r)
      | _ => none
    else if c = 't' then
      match rest with
      | 'r' :: 'u' :: 'e' :: r => some (.bool true, r)
      | _ => none
    else if c = 'f' then
      match rest with
      | 'a' :: 'l' :: 's' :: 'e' :: r => some (.bool false, r)
      | _ => none
    else if c = '"' then
      (parseStringBody rest).map fun p => (.str (String.mk p.1), p.2)
    else if c = '[' then parseListStart fuel rest
    else if c = '{' then parseFieldsStart fuel rest
    else none

/-- Read an array body: either the closing bracket at once, or a first
element followed by the comma-separated remainder. -/
def parseListStart : Nat → List Char → Option (Json × List Char)
  | 0, _ => none
  | _ + 1, [] => none
  | fuel + 1, c :: rest =>
    if c = ']' then some (.arr .nil, rest)
    else
      match parseJson fuel (c :: rest) with
      | none => none
      | some (j, r) =>
        match parseListTail fuel r with
        | none => none
        | some (tl, r₁) => some (.arr (.cons j tl), r₁)

/-- Read the remainder of an array body after one element. -/
def parseListTail : Nat → List Char → Option (JsonList × List Char)
  | 0, _ => none
  | _ + 1, [] => none
  | fuel + 1, c :: rest =>
    if c = ']' then some (.nil, rest)
    else if c = ',' then
      match parseJson fuel rest with
      | none => none
      | some (j, r) =>
        match parseListTail fuel r with
        | none => none
        | some (tl, r₁) => some (.cons j tl, r₁)
    else none

/-- Read an object body: either the closing brace at once, or a first
field followed by the comma-separated remainder. -/
def parseFieldsStart : Nat → List Char → Option (Json × List Char)
  | 0, _ => none
  | _ + 1, [] => none
  | fuel + 1, c :: rest =>
    if c = '}' then some (.obj .nil, rest)
    else if c = '"' then
      match parseStringBody rest with
      | none => none
      | some (k, r) =>
        match r with
        | ':' :: r₁ =>
          match parseJson fuel r₁ with
          | none => none
          | some (v, r₂) =>
            match parseFieldsTail fuel r₂ with
            | none => none
            | some (tl, r₃) => some (.obj (.cons (String.mk k) v tl), r₃)
        | _ => none
    else none

/-- Read the remainder of an object body after one field. -/
def parseFieldsTail : Nat → List Char → Option (JsonFields × List Char)
  | 0, _ => none
  | _ + 1, [] => none
  | fuel + 1, c :: rest =>
    if c = '}' then some (.nil, rest)
    else if c = ',' then
      match rest with
      | '"' :: r =>
        match parseStringBody r with
        | none => none
        | some (k, r₁) =>
          match r₁ with
          | ':' :: r₂ =>
            match parseJson fuel r₂ with
            | none => none
            | some (v, r₃) =>
              match parseFieldsTail fuel r₃ with
              | none => none
              | some (tl, r₄) => some (.cons (String.mk k) v tl, r₄)
          | _ => none
      | _ => none
    else none

end

/-- The `JSON.parse` counterpart on whole strings: succeeds only when
the input is consumed entirely. -/
def Json.parse (s : String) : Option Json :=
  match parseJson (s.length + 1) s.data with
  | some (j, []) => some j
  | _ => none

/-! ### Recursion budgets sufficient for each serialized form -/

mutual

/-- Budget with which `parseJson` is sure to read back a value. -/
def Json.fuelNeed : Json → Nat
  | .null => 1
  | .bool _ => 1
  | .str _ => 1
  | .arr es => es.startFuel + 1
  | .obj fs => fs.startFuel + 1

/-- Budget for `parseListStart` on a serialized array body. -/
def JsonList.startFuel : JsonList → Nat
  | .nil => 1
  | .cons j tl => max j.fuelNeed tl.tailFuel + 1

/-- Budget for `parseListTail` on a serialized array remainder. -/
def JsonList.tailFuel : JsonList → Nat
  | .nil => 1
  | .cons j tl => max j.fuelNeed tl.tailFuel + 1

/-- Budget for `parseFieldsStart` on a serialized object body. -/
def JsonFields.startFuel : JsonFields → Nat
  | .nil => 1
  | .cons _ v tl => max v.fuelNeed tl.tailFuel + 1

/-- Budget for `parseFieldsTail` on a serialized object remainder. -/
def JsonFields.tailFuel : JsonFields → Nat
  | .nil => 1
  | .cons _ v tl => max v.fuelNeed tl.tailFuel + 1

end

/-! ## The capability interfaces (`types.ts`, out-of-scope collaborators)

Only the two operations the composer uses appear; the state types are
opaque type parameters (`unknown` in the source). -/

/-- The slice of the `Datasource` capability used by the composer. -/
structure Datasource (σ : Type) where
  getLayers : σ → List String
  toExpression : σ → String → Option AstOrString

/-- One entry of the data-source state map. -/
structure DatasourceStateEntry (σ : Type) where
  isLoading : Bool
  state : σ

/-- The slice of the `Visualization` capability used by the composer. -/
structure Visualization (τ φ : Type) where
  toExpression : τ → φ → Option AstOrString

/-- The optional context parameters of `prependKibanaContext`.  The
TypeScript types (`TimeRange`, `Query`, `Filter[]`) guarantee that a
supplied value is an object (resp. an array), hence truthy, so the
source's `x ? ... : ...` test coincides with presence. -/
structure KibanaContextArgs where
  timeRange : Option Json
  query : Option Json
  filters : Option JsonList

/-! ## The composer (`expression_helpers.ts` lines 13-126) -/

/-- The inner loop of `prependDatasourceExpression` (lines 30-35): for
each layer reported by the data source, request its expression and push
the pair when the result is truthy. -/
def layerEntries {σ : Type} (datasource : Datasource σ) (state : σ) :
    List (String × AstOrString) :=
  (datasource.getLayers state).filterMap fun layerId =>
    match datasource.toExpression state layerId with
    | none => none
    | some result => if result.isFalsy then none else some (layerId, result)

/-- The outer loop of `prependDatasourceExpression` (lines 26-36):
iterate the data-source map in order, read
`datasourceStates[datasourceId].state` — which throws a `TypeError` if
the state map has no such entry — and collect the layer/expression
pairs. -/
def collectDatasourceExpressions {σ : Type}
    (datasourceMap : List (String × Datasource σ))
    (datasourceStates : List (String × DatasourceStateEntry σ)) :
    Except String (List (String × AstOrString)) :=
  match datasourceMap with
  | [] => .ok []
  | (datasourceId, datasource) :: rest =>
    match datasourceStates.lookup datasourceId with
    | none => .error "TypeError: cannot read property state of undefined"
    | some entry =>
      (collectDatasourceExpressions rest datasourceStates).map
        (fun tail => layerEntries datasource entry.state ++ tail)

/-- Lines 13-63 of the source.  Collect the per-layer data-source
expressions; return `null` if none were collected or the visualization
expression is `null`; otherwise parse textual forms and prepend the
`lens_merge_tables` node carrying the parallel `layerIds`/`tables`
argument sequences to the visualization's chain. -/
def prependDatasourceExpression {σ : Type} (fromExpression : String → Ast)
    (visualizationExpression : Option AstOrString)
    (datasourceMap : List (String × Datasource σ))
    (datasourceStates : List (String × DatasourceStateEntry σ)) :
    Except String (Option Ast) :=
  (collectDatasourceExpressions datasourceMap datasourceStates).map
    fun datasourceExpressions =>
      match visualizationExpression with
      | none => none
      | some visExpr =>
        if datasourceExpressions.length == 0 then none
        else
          let parsedDatasourceExpressions : List (String × Ast) :=
            datasourceExpressions.map fun p => (p.1, p.2.toAst fromExpression)
          let datafetchExpression : ExpressionFunctionAST :=
            .mk "lens_merge_tables"
              [("layerIds", parsedDatasourceExpressions.map fun p => AstArg.str p.1),
               ("tables", parsedDatasourceExpressions.map fun p => AstArg.ast p.2)]
          some (.mk (datafetchExpression :: (visExpr.toAst fromExpression).chain))

/-- Lines 65-96 of the source.  `if (!expression) return null` (so
`null` and the empty textual form both yield `null`); otherwise parse a
textual form and prepend the `kibana` and `kibana_context` nodes, the
latter serializing each supplied context parameter to a single-element
text sequence and each absent one to an empty sequence. -/
def prependKibanaContext (fromExpression : String → Ast)
    (expression : Option AstOrString) (ctx : KibanaContextArgs) : Option Ast :=
  match expression with
  | none => none
  | some e =>
    if e.isFalsy then none
    else
      let parsedExpression := e.toAst fromExpression
      some (.mk
        (.mk "kibana" [] ::
         .mk "kibana_context"
           [("timeRange",
             match ctx.timeRange with
             | some t => [AstArg.str t.stringify]
             | none => []),
            ("query",
             match ctx.query with
             | some q => [AstArg.str q.stringify]
             | none => []),
            ("filters",
             match ctx.filters with
             | some fs => [AstArg.str (Json.arr fs).stringify]
             | none => [])] ::
         parsedExpression.chain))

/-- The empty object literal passed as context on line 124. -/
def emptyKibanaContext : KibanaContextArgs :=
  { timeRange := none, query := none, filters := none }

/-- The named-argument object of `buildExpression`. -/
structure BuildExpressionArgs (σ τ φ : Type) where
  visualization : Option (Visualization τ φ)
  visualizationState : τ
  datasourceMap : List (String × Datasource σ)
  datasourceStates : List (String × DatasourceStateEntry σ)
  framePublicAPI : φ

/-- Lines 98-126 of the source.  `null` visualization short-circuits to
`null`; otherwise the visualization's own expression is merged with the
data-source expressions and wrapped in an empty Kibana context.  (The
value `Ast | null` flows into the `Ast | string | null` parameter of
`prependKibanaContext`; the embedding makes that union injection
explicit with `Option.map AstOrString.ast`.) -/
def buildExpression {σ τ φ : Type} (fromExpression : String → Ast)
    (args : BuildExpressionArgs σ τ φ) : Except String (Option Ast) :=
  match args.visualization with
  | none => .ok none
  | some visualization =>
    let visualizationExpression :=
      visualization.toExpression args.visualizationState args.framePublicAPI
    (prependDatasourceExpression fromExpression visualizationExpression
        args.datasourceMap args.datasourceStates).map
      fun merged =>
        prependKibanaContext fromExpression (merged.map AstOrString.ast) emptyKibanaContext

/-! ## Concrete fixtures for witnesses and counterexamples -/

/-- A trivial stand-in for the external expression parser. -/
def trivialFromExpression : String → Ast := fun _ => Ast.mk []

/-- A one-node expression tree standing for a layer expression. -/
def mockLayerAst : Ast := .mk [.mk "datasource" []]

/-- A one-node expression tree standing for a visualization expression. -/
def mockVisAst : Ast := .mk [.mk "vis" []]

/-- A data source with one layer that always reports an expression. -/
def mockDatasource : Datasource Unit where
  getLayers := fun _ => ["first"]
  toExpression := fun _ _ => some (.ast mockLayerAst)

/-- A state map with one entry for the mock data source. -/
def mockStates : List (String × DatasourceStateEntry Unit) :=
  [("mock", { isLoading := false, state := () })]

/-- A fully populated argument object for `buildExpression`. -/
def mockBuildArgs : BuildExpressionArgs Unit Unit Unit where
  visualization := some { toExpression := fun _ _ => some (.ast mockVisAst) }
  visualizationState := ()
  datasourceMap := [("mock", mockDatasource)]
  datasourceStates := mockStates
  framePublicAPI := ()

/-- A data source with one layer lacking an expression and one layer
with an expression. -/
def skipDatasource : Datasource Unit where
  getLayers := fun _ => ["missing", "first"]
  toExpression := fun _ layerId =>
    if layerId = "missing" then none else some (.ast mockLayerAst)

/-- A data source reporting the empty textual form for its layer. -/
def emptyStringDatasource : Datasource Unit where
  getLayers := fun _ => ["first"]
  toExpression := fun _ _ => some (.str "")

/-- A data source reporting no expression for its layer. -/
def absentDatasource : Datasource Unit where
  getLayers := fun _ => ["first"]
  toExpression := fun _ _ => none

/-- A sample time range value. -/
def mockTimeRange : Json :=
  .obj (.cons "from" (.str "now-7d") (.cons "to" (.str "now") .nil))

/-- A sample query value. -/
def mockQuery : Json :=
  .obj (.cons "query" (.str "") (.cons "language" (.str "kuery") .nil))

/-- A sample filter list. -/
def mockFilters : JsonList :=
  .cons (.obj (.cons "meta" (.obj (.cons "negate" (.bool false) .nil)) .nil)) .nil

/-! ## Round trip of the JSON serialization -/

/-- A hexadecimal digit emitted by `hexDigitChar` reads back to its
value. -/
theorem hexVal_hexDigitChar {d : Nat} (h : d < 16) :
    hexVal (hexDigitChar d) = some d := by
  interval_cases d <;> decide

/-- Reading back an escaped string body up to its closing quote
restores the original characters and leaves the suffix intact. -/
theorem parseStringBody_escapeString (s : List Char) :
    ∀ rest : List Char,
      parseStringBody (escapeString s ++ '"' :: rest) = some (s, rest) := by
  induction s with
  | nil =>
    intro rest
    simp only [escapeString, List.nil_append]
    rw [parseStringBody.eq_def]
    simp
  | cons c cs ih =>
    intro rest
    by_cases h1 : c = '"'
    · subst h1
      simp only [escapeString, List.cons_append, List.nil_append]
      rw [parseStringBody.eq_def]
      simp [escapeChar, ih]
    · by_cases h2 : c = '\\'
      · subst h2
        simp only [escapeString, List.cons_append, List.nil_append]
        rw [parseStringBody.eq_def]
        simp [escapeChar, ih]
      · by_cases h3 : c = Char.ofNat 8
        · subst h3
          have e : escapeChar (Char.ofNat 8) = ['\\', 'b'] := by decide
          simp only [escapeString, e, List.cons_append, List.nil_append]
          rw [parseStringBody.eq_def]
          simp [ih]
        · by_cases h4 : c = Char.ofNat 9
          · subst h4
            have e : escapeChar (Char.ofNat 9) = ['\\', 't'] := by decide
            simp only [escapeString, e, List.cons_append, List.nil_append]
            rw [parseStringBody.eq_def]
            simp [ih]
          · by_cases h5 : c = Char.ofNat 10
            · subst h5
              have e : escapeChar (Char.ofNat 10) = ['\\', 'n'] := by decide
              simp only [escapeString, e, List.cons_append, List.nil_append]
              rw [parseStringBody.eq_def]
              simp [ih]
            · by_cases h6 : c = Char.ofNat 12
              · subst h6
                have e : escapeChar (Char.ofNat 12) = ['\\', 'f'] := by decide
                simp only [escapeString, e, List.cons_append, List.nil_append]
                rw [parseStringBody.eq_def]
                simp [ih]
              · by_cases h7 : c = Char.ofNat 13
                · subst h7
                  have e : escapeChar (Char.ofNat 13) = ['\\', 'r'] := by decide
                  simp only [escapeString, e, List.cons_append, List.nil_append]
                  rw [parseStringBody.eq_def]
                  simp [ih]
                · by_cases h8 : c.toNat < 32
                  · have hdiv : c.toNat / 16 < 16 := by omega
                    have hmod : c.toNat % 16 < 16 := by omega
                    have e : escapeChar c = ['\\', 'u', '0', '0',
                        hexDigitChar (c.toNat / 16), hexDigitChar (c.toNat % 16)] := by
                      simp [escapeChar, h1, h2, h3, h4, h5, h6, h7, h8]
                    simp only [escapeString, e, List.cons_append, List.nil_append]
                    rw [parseStringBody.eq_def]
                    have h0 : hexVal '0' = some 0 := by decide
                    simp [h0, hexVal_hexDigitChar hdiv, hexVal_hexDigitChar hmod,
                      Nat.div_add_mod, Char.ofNat_toNat, ih]
                  · have e : escapeChar c = [c] := by
                      simp [escapeChar, h1, h2, h3, h4, h5, h6, h7, h8]
                    simp only [escapeString, e, List.cons_append, List.nil_append]
                    rw [parseStringBody.eq_def]
                    simp [h1, h2, ih]

/-- The serialization of a JSON value starts with a character that is
not a closing bracket (it is one of the six value starters). -/
theorem Json.chars_head (j : Json) :
    ∃ c cs', Json.chars j = c :: cs' ∧ c ≠ ']' := by
  cases j with
  | null => exact ⟨'n', ['u', 'l', 'l'], by simp [Json.chars], by decide⟩
  | bool b =>
    cases b with
    | false => exact ⟨'f', ['a', 'l', 's', 'e'], by simp [Json.chars], by decide⟩
    | true => exact ⟨'t', ['r', 'u', 'e'], by simp [Json.chars], by decide⟩
  | str s => exact ⟨'"', escapeString s.data ++ ['"'], by simp [Json.chars, quoteChars], by decide⟩
  | arr es => exact ⟨'[', JsonList.chars es, by simp [Json.chars], by decide⟩
  | obj fs => exact ⟨'{', JsonFields.chars fs, by simp [Json.chars], by decide⟩

/-- Stepping rule: on input not starting with a closing bracket,
`parseListStart` reads one element and then the remainder. -/
theorem parseListStart_step (f : Nat) (c : Char) (cs : List Char) (hne : c ≠ ']') :
    parseListStart (f + 1) (c :: cs) =
      match parseJson f (c :: cs) with
      | none => none
      | some (j, r) =>
        match parseListTail f r with
        | none => none
        | some (tl, r₁) => some (.arr (.cons j tl), r₁) := by
  rw [parseListStart.eq_def]
  simp [hne]

mutual

/-- With enough budget, `parseJson` reads back a serialized value and
leaves the suffix intact. -/
theorem parseJson_chars (j : Json) :
    ∀ (fuel : Nat) (rest : List Char), j.fuelNeed ≤ fuel →
      parseJson fuel (Json.chars j ++ rest) = some (j, rest) := by
  intro fuel rest h
  match j with
  | .null =>
    simp only [Json.fuelNeed] at h
    cases fuel with
    | zero => omega
    | succ f =>
      simp only [Json.chars, List.cons_append, List.nil_append]
      rw [parseJson.eq_def]
      simp
  | .bool true =>
    simp only [Json.fuelNeed] at h
    cases fuel with
    | zero => omega
    | succ f =>
      simp only [Json.chars, List.cons_append, List.nil_append]
      rw [parseJson.eq_def]
      simp
  | .bool false =>
    simp only [Json.fuelNeed] at h
    cases fuel with
    | zero => omega
    | succ f =>
      simp only [Json.chars, List.cons_append, List.nil_append]
      rw [parseJson.eq_def]
      simp
  | .str s =>
    simp only [Json.fuelNeed] at h
    cases fuel with
    | zero => omega
    | succ f =>
      simp only [Json.chars, quoteChars, List.cons_append, List.append_assoc,
        List.singleton_append]
      rw [parseJson.eq_def]
      simp [parseStringBody_escapeString]
  | .arr es =>
    simp only [Json.fuelNeed] at h
    cases fuel with
    | zero => omega
    | succ f =>
      simp only [Json.chars, List.cons_append]
      rw [parseJson.eq_def]
      simp only [Char.isValue, reduceIte]
      exact parseListStart_chars es f rest (by omega)
  | .obj fs =>
    simp only [Json.fuelNeed] at h
    cases fuel with
    | zero => omega
    | succ f =>
      simp only [Json.chars, List.cons_append]
      rw [parseJson.eq_def]
      simp only [Char.isValue, reduceIte]
      exact parseFieldsStart_chars fs f rest (by omega)

/-- With enough budget, `parseListStart` reads back a serialized array
body. -/
theorem parseListStart_chars (es : JsonList) :
    ∀ (fuel : Nat) (rest : List Char), es.startFuel ≤ fuel →
      parseListStart fuel (JsonList.chars es ++ rest) = some (.arr es, rest) := by
  intro fuel rest h
  match es with
  | .nil =>
    simp only [JsonList.startFuel] at h
    cases fuel with
    | zero => omega
    | succ f =>
      simp only [JsonList.chars, List.cons_append, List.nil_append]
      rw [parseListStart.eq_def]
      simp
  | .cons j tl =>
    simp only [JsonList.startFuel] at h
    cases fuel with
    | zero => omega
    | succ f =>
      have hj : j.fuelNeed ≤ f := by omega
      have ht : tl.tailFuel ≤ f := by omega
      obtain ⟨c, cs', hc, hne⟩ := Json.chars_head j
      have hsplit : Json.chars j ++ (JsonList.tailChars tl ++ rest)
          = c :: (cs' ++ (JsonList.tailChars tl ++ rest)) := by
        rw [hc]; rfl
      simp only [JsonList.chars, List.append_assoc]
      rw [hsplit, parseListStart_step f c _ hne, ← hsplit]
      simp [parseJson_chars j f _ hj, parseListTail_chars tl f rest ht]

/-- With enough budget, `parseListTail` reads back a serialized array
remainder. -/
theorem parseListTail_chars (tl : JsonList) :
    ∀ (fuel : Nat) (rest : List Char), tl.tailFuel ≤ fuel →
      parseListTail fuel (JsonList.tailChars tl ++ rest) = some (tl, rest) := by
  intro fuel rest h
  match tl with
  | .nil =>
    simp only [JsonList.tailFuel] at h
    cases fuel with
    | zero => omega
    | succ f =>
      simp only [JsonList.tailChars, List.cons_append, List.nil_append]
      rw [parseListTail.eq_def]
      simp
  | .cons j tl' =>
    simp only [JsonList.tailFuel] at h
    cases fuel with
    | zero => omega
    | succ f =>
      have hj : j.fuelNeed ≤ f := by omega
      have ht : tl'.tailFuel ≤ f := by omega
      simp only [JsonList.tailChars, List.cons_append, List.append_assoc]
      rw [parseListTail.eq_def]
      simp [parseJson_chars j f _ hj, parseListTail_chars tl' f rest ht]

/-- With enough budget, `parseFieldsStart` reads back a serialized
object body. -/
theorem parseFieldsStart_chars (fs : JsonFields) :
    ∀ (fuel : Nat) (rest : List Char), fs.startFuel ≤ fuel →
      parseFieldsStart fuel (JsonFields.chars fs ++ rest) = some (.obj fs, rest) := by
  intro fuel rest h
  match fs with
  | .nil =>
    simp only [JsonFields.startFuel] at h
    cases fuel with
    | zero => omega
    | succ f =>
      simp only [JsonFields.chars, List.cons_append, List.nil_append]
      rw [parseFieldsStart.eq_def]
      simp
  | .cons k v tl =>
    simp only [JsonFields.startFuel] at h
    cases fuel with
    | zero => omega
    | succ f =>
      have hv : v.fuelNeed ≤ f := by omega
      have ht : tl.tailFuel ≤ f := by omega
      simp only [JsonFields.chars, quoteChars, List.cons_append, List.append_assoc,
        List.singleton_append]
      rw [parseFieldsStart.eq_def]
      simp [parseStringBody_escapeString k.data, parseJson_chars v f _ hv,
        parseFieldsTail_chars tl f rest ht]

/-- With enough budget, `parseFieldsTail` reads back a serialized
object remainder. -/
theorem parseFieldsTail_chars (tl : JsonFields) :
    ∀ (fuel : Nat) (rest : List Char), tl.tailFuel ≤ fuel →
      parseFieldsTail fuel (JsonFields.tailChars tl ++ rest) = some (tl, rest) := by
  intro fuel rest h
  match tl with
  | .nil =>
    simp only [JsonFields.tailFuel] at h
    cases fuel with
    | zero => omega
    | succ f =>
      simp only [JsonFields.tailChars, List.cons_append, List.nil_append]
      rw [parseFieldsTail.eq_def]
      simp
  | .cons k v tl' =>
    simp only [JsonFields.tailFuel] at h
    cases fuel with
    | zero => omega
    | succ f =>
      have hv : v.fuelNeed ≤ f := by omega
      have ht : tl'.tailFuel ≤ f := by omega
      simp only [JsonFields.tailChars, quoteChars, List.cons_append, List.append_assoc,
        List.singleton_append]
      rw [parseFieldsTail.eq_def]
      simp [parseStringBody_escapeString k.data, parseJson_chars v f _ hv,
        parseFieldsTail_chars tl' f rest ht]

end

/-- Serializations are never empty. -/
theorem Json.chars_length_pos (j : Json) : 1 ≤ (Json.chars j).length := by
  obtain ⟨c, cs', hc, _⟩ := Json.chars_head j
  rw [hc]
  simp

/-- Array-remainder serializations are never empty. -/
theorem JsonList.tailChars_length_pos (tl : JsonList) :
    1 ≤ (JsonList.tailChars tl).length := by
  cases tl <;> simp [JsonList.tailChars]

mutual

/-- The serialized length bounds the budget `parseJson` needs. -/
theorem Json.fuelNeed_le (j : Json) : j.fuelNeed ≤ (Json.chars j).length := by
  match j with
  | .null => simp [Json.fuelNeed, Json.chars]
  | .bool true => simp [Json.fuelNeed, Json.chars]
  | .bool false => simp [Json.fuelNeed, Json.chars]
  | .str s => simp [Json.fuelNeed, Json.chars, quoteChars]
  | .arr es =>
    have h := JsonList.startFuel_le es
    simp only [Json.fuelNeed, Json.chars, List.length_cons]
    omega
  | .obj fs =>
    have h := JsonFields.startFuelBound fs
    simp only [Json.fuelNeed, Json.chars, List.length_cons]
    omega

/-- The serialized length bounds the budget `parseListStart` needs. -/
theorem JsonList.startFuel_le (es : JsonList) :
    es.startFuel ≤ (JsonList.chars es).length := by
  match es with
  | .nil => simp [JsonList.startFuel, JsonList.chars]
  | .cons j tl =>
    have hj := Json.fuelNeed_le j
    have ht := JsonList.tailFuel_le tl
    have p1 := Json.chars_length_pos j
    have p2 := JsonList.tailChars_length_pos tl
    simp only [JsonList.startFuel, JsonList.chars, List.length_append]
    omega

/-- The serialized length bounds the budget `parseListTail` needs. -/
theorem JsonList.tailFuel_le (tl : JsonList) :
    tl.tailFuel ≤ (JsonList.tailChars tl).length := by
  match tl with
  | .nil => simp [JsonList.tailFuel, JsonList.tailChars]
  | .cons j tl' =>
    have hj := Json.fuelNeed_le j
    have ht := JsonList.tailFuel_le tl'
    simp only [JsonList.tailFuel, JsonList.tailChars, List.length_cons, List.length_append]
    omega

/-- The serialized length bounds the budget `parseFieldsStart` needs. -/
theorem JsonFields.startFuelBound (fs : JsonFields) :
    fs.startFuel ≤ (JsonFields.chars fs).length := by
  match fs with
  | .nil => simp [JsonFields.startFuel, JsonFields.chars]
  | .cons k v tl =>
    have hv := Json.fuelNeed_le v
    have ht := JsonFields.tailFuelBound tl
    simp only [JsonFields.startFuel, JsonFields.chars, quoteChars, List.length_append,
      List.length_cons]
    omega

/-- The serialized length bounds the budget `parseFieldsTail` needs. -/
theorem JsonFields.tailFuelBound (tl : JsonFields) :
    tl.tailFuel ≤ (JsonFields.tailChars tl).length := by
  match tl with
  | .nil => simp [JsonFields.tailFuel, JsonFields.tailChars]
  | .cons k v tl' =>
    have hv := Json.fuelNeed_le v
    have ht := JsonFields.tailFuelBound tl'
    simp only [JsonFields.tailFuel, JsonFields.tailChars, quoteChars, List.length_append,
      List.length_cons]
    omega

end

/-- Round trip of the modelled serialization: parsing the canonical
serialized text of any JSON value restores the value. -/
theorem Json.parse_stringify (j : Json) : Json.parse (Json.stringify j) = some j := by
  have hle : j.fuelNeed ≤ (Json.chars j).length + 1 :=
    le_trans (Json.fuelNeed_le j) (Nat.le_succ _)
  have h := parseJson_chars j ((Json.chars j).length + 1) [] hle
  rw [List.append_nil] at h
  show (match parseJson ((Json.chars j).length + 1) (Json.chars j) with
        | some (v, []) => some v
        | _ => none) = some j
  rw [h]

/-! ## Claim C9 -/

/-- Claim C9: for the empty-string textual expression, the code path
`if (!expression) return null` of `prependKibanaContext` treats the
empty textual form exactly like an absent expression and returns
`null`. -/
theorem prependKibanaContext_empty_string (fromExpression : String → Ast)
    (ctx : KibanaContextArgs) :
    prependKibanaContext fromExpression (some (.str "")) ctx = none := by
  have h : ("" : String).isEmpty = true := rfl
  simp [prependKibanaContext, AstOrString.isFalsy, h]

/-! ## Claim C3 -/

/-- Claim C3 counterexample: the empty textual form is a present (non-
absent) input expression, yet `prependKibanaContext` returns `null` for
it instead of the claimed two-node context tree. -/
theorem prependKibanaContext_claimC3_counterexample :
    prependKibanaContext trivialFromExpression (some (.str "")) emptyKibanaContext = none := by
  have h : ("" : String).isEmpty = true := rfl
  simp [prependKibanaContext, AstOrString.isFalsy, h]

/-- Claim C3 (amended): `prependKibanaContext` returns absent when the
input expression is absent, and also when it is the (falsy) empty
textual form; for any other input it returns a new tree beginning with
exactly the two fixed nodes `kibana` and `kibana_context` ahead of all
nodes of the input chain, the second node's three arguments each being
a single serialized-text value when the parameter was supplied and an
empty sequence when it was not. -/
theorem prependKibanaContext_shape (fromExpression : String → Ast)
    (ctx : KibanaContextArgs) :
    prependKibanaContext fromExpression none ctx = none ∧
    (∀ e : AstOrString, e.isFalsy = true →
      prependKibanaContext fromExpression (some e) ctx = none) ∧
    ∀ e : AstOrString, e.isFalsy = false →
      prependKibanaContext fromExpression (some e) ctx =
        some (.mk
          (.mk "kibana" [] ::
           .mk "kibana_context"
             [("timeRange",
               match ctx.timeRange with
               | some t => [AstArg.str t.stringify]
               | none => []),
              ("query",
               match ctx.query with
               | some q => [AstArg.str q.stringify]
               | none => []),
              ("filters",
               match ctx.filters with
               | some fs => [AstArg.str (Json.arr fs).stringify]
               | none => [])] ::
           (e.toAst fromExpression).chain)) := by
  refine ⟨rfl, ?_, ?_⟩
  · intro e he
    simp [prependKibanaContext, he]
  · intro e he
    simp [prependKibanaContext, he]

/-- Claim C3 witness: the amended statement evaluated at a concrete
tree expression and the empty context. -/
theorem prependKibanaContext_shape_witness :
    prependKibanaContext trivialFromExpression (some (.ast mockVisAst)) emptyKibanaContext =
      some (.mk
        (.mk "kibana" [] ::
         .mk "kibana_context" [("timeRange", []), ("query", []), ("filters", [])] ::
         mockVisAst.chain)) := by
  have h := (prependKibanaContext_shape trivialFromExpression emptyKibanaContext).2.2
    (.ast mockVisAst) rfl
  simpa [emptyKibanaContext, AstOrString.toAst] using h

/-! ## Claim C2 -/

/-- Claim C2 counterexample: with an absent visualization expression
but a data-source map entry lacking a state-map entry, the function
does not return absent — the state read on line 27 throws before the
absence check on line 38 is reached. -/
theorem prependDatasourceExpression_absent_counterexample :
    prependDatasourceExpression trivialFromExpression none [("mock", mockDatasource)]
        ([] : List (String × DatasourceStateEntry Unit))
      = .error "TypeError: cannot read property state of undefined" ∧
    prependDatasourceExpression trivialFromExpression none [("mock", mockDatasource)]
        ([] : List (String × DatasourceStateEntry Unit))
      ≠ .ok none := by
  have h : prependDatasourceExpression trivialFromExpression none [("mock", mockDatasource)]
      ([] : List (String × DatasourceStateEntry Unit))
        = .error "TypeError: cannot read property state of undefined" := by
    simp [prependDatasourceExpression, collectDatasourceExpressions, List.lookup, Except.map]
  refine ⟨h, ?_⟩
  rw [h]
  simp

/-- Claim C2 (amended): on every input whose layer-collection loop
completes (in particular whenever every data-source identifier of the
map has a state entry), `prependDatasourceExpression` returns absent
when the visualization expression is absent or when no data source
contributed any layer expression; the output is all-or-nothing, never a
partial tree. -/
theorem prependDatasourceExpression_absent {σ : Type} (fromExpression : String → Ast)
    (vis : Option AstOrString)
    (datasourceMap : List (String × Datasource σ))
    (datasourceStates : List (String × DatasourceStateEntry σ))
    (exprs : List (String × AstOrString))
    (hc : collectDatasourceExpressions datasourceMap datasourceStates = .ok exprs)
    (h : vis = none ∨ exprs = []) :
    prependDatasourceExpression fromExpression vis datasourceMap datasourceStates
      = .ok none := by
  unfold prependDatasourceExpression
  rw [hc]
  rcases h with h | h
  · subst h
    rfl
  · subst h
    cases vis <;> simp [Except.map]

/-- Claim C2 witness: a visualization expression is present but the
(single) data source contributes no layer expression, so the result is
absent. -/
theorem prependDatasourceExpression_absent_witness :
    collectDatasourceExpressions [("mock", absentDatasource)] mockStates = .ok [] ∧
    prependDatasourceExpression trivialFromExpression (some (.ast mockVisAst))
      [("mock", absentDatasource)] mockStates = .ok none := by
  have hc : collectDatasourceExpressions [("mock", absentDatasource)] mockStates = .ok [] := by
    simp [collectDatasourceExpressions, mockStates, List.lookup, layerEntries, absentDatasource,
      Except.map]
  exact ⟨hc, prependDatasourceExpression_absent trivialFromExpression _ _ _ [] hc (Or.inr rfl)⟩

/-! ## Claim C4 -/

/-- Claim C4: `buildExpression` returns absent for an absent
visualization; otherwise it equals `prependKibanaContext` with no
context parameters applied to `prependDatasourceExpression` applied to
the visualization's own expression, and an absent merge result
collapses the whole result to absent. -/
theorem buildExpression_pipeline {σ τ φ : Type} (fromExpression : String → Ast)
    (args : BuildExpressionArgs σ τ φ) :
    (args.visualization = none → buildExpression fromExpression args = .ok none) ∧
    (∀ v, args.visualization = some v →
      buildExpression fromExpression args =
        (prependDatasourceExpression fromExpression
            (v.toExpression args.visualizationState args.framePublicAPI)
            args.datasourceMap args.datasourceStates).map
          (fun merged =>
            prependKibanaContext fromExpression (merged.map AstOrString.ast)
              emptyKibanaContext)) ∧
    (∀ v, args.visualization = some v →
      prependDatasourceExpression fromExpression
          (v.toExpression args.visualizationState args.framePublicAPI)
          args.datasourceMap args.datasourceStates = .ok none →
      buildExpression fromExpression args = .ok none) := by
  refine ⟨?_, ?_, ?_⟩
  · intro h
    unfold buildExpression
    rw [h]
  · intro v h
    unfold buildExpression
    rw [h]
  · intro v h hnone
    unfold buildExpression
    rw [h]
    show Except.map
        (fun merged =>
          prependKibanaContext fromExpression (Option.map AstOrString.ast merged)
            emptyKibanaContext)
        (prependDatasourceExpression fromExpression
          (v.toExpression args.visualizationState args.framePublicAPI)
          args.datasourceMap args.datasourceStates) = .ok none
    rw [hnone]
    rfl

/-- Claim C4 witness: the pipeline equation evaluated on fully
populated concrete arguments. -/
theorem buildExpression_pipeline_witness :
    buildExpression trivialFromExpression mockBuildArgs =
      (prependDatasourceExpression trivialFromExpression (some (.ast mockVisAst))
          [("mock", mockDatasource)] mockStates).map
        (fun merged =>
          prependKibanaContext trivialFromExpression (merged.map AstOrString.ast)
            emptyKibanaContext) :=
  (buildExpression_pipeline trivialFromExpression mockBuildArgs).2.1 _ rfl

/-! ## Claim C8 -/

/-- Claim C8: `buildExpression` is a deterministic pure function of its
arguments — equal inputs yield equal outputs (the embedding is a total
function over immutable values, so there is no mutation to observe). -/
theorem buildExpression_deterministic {σ τ φ : Type} (fromExpression : String → Ast)
    (args₁ args₂ : BuildExpressionArgs σ τ φ) (h : args₁ = args₂) :
    buildExpression fromExpression args₁ = buildExpression fromExpression args₂ := by
  rw [h]

/-- Claim C8 witness: determinism at a concrete argument object. -/
theorem buildExpression_deterministic_witness :
    buildExpression trivialFromExpression mockBuildArgs
      = buildExpression trivialFromExpression mockBuildArgs :=
  buildExpression_deterministic trivialFromExpression mockBuildArgs mockBuildArgs rfl

/-! ## Claim C1 -/

/-- Claim C1: for a present visualization expression and a non-empty
collected sequence of layer/expression pairs (in the iteration order of
the data-source map, then each data source's reported layer order —
this is the order `collectDatasourceExpressions` produces), the result
is a tree whose first node is `lens_merge_tables` carrying the layer
identifiers and the parsed per-layer expression trees as two parallel
sequences of equal length, paired index-for-index, followed by all
nodes of the visualization's own chain in order. -/
theorem prependDatasourceExpression_merge_shape {σ : Type} (fromExpression : String → Ast)
    (visExpr : AstOrString)
    (datasourceMap : List (String × Datasource σ))
    (datasourceStates : List (String × DatasourceStateEntry σ))
    (exprs : List (String × AstOrString))
    (hc : collectDatasourceExpressions datasourceMap datasourceStates = .ok exprs)
    (hne : exprs ≠ []) :
    prependDatasourceExpression fromExpression (some visExpr) datasourceMap datasourceStates
      = .ok (some (.mk
          (.mk "lens_merge_tables"
            [("layerIds", exprs.map fun p => AstArg.str p.1),
             ("tables", exprs.map fun p => AstArg.ast (p.2.toAst fromExpression))]
           :: (visExpr.toAst fromExpression).chain))) ∧
    (exprs.map fun p => AstArg.str p.1).length
      = (exprs.map fun p => AstArg.ast (p.2.toAst fromExpression)).length ∧
    ∀ i (hi : i < exprs.length),
      (exprs.map fun p => AstArg.str p.1).get? i
          = some (AstArg.str (exprs.get ⟨i, hi⟩).1) ∧
      (exprs.map fun p => AstArg.ast (p.2.toAst fromExpression)).get? i
          = some (AstArg.ast ((exprs.get ⟨i, hi⟩).2.toAst fromExpression)) := by
  refine ⟨?_, by simp, ?_⟩
  · unfold prependDatasourceExpression
    rw [hc]
    rcases exprs with _ | ⟨p, rest⟩
    · exact absurd rfl hne
    · simp [Except.map]
  · intro i hi
    constructor
    · rw [List.get?_map, List.get?_eq_get hi]
      rfl
    · rw [List.get?_map, List.get?_eq_get hi]
      rfl

/-- Claim C1 witness: one data source, one layer, concrete expressions;
the merge node carries the singleton parallel sequences ahead of the
visualization chain. -/
theorem prependDatasourceExpression_merge_shape_witness :
    collectDatasourceExpressions [("mock", mockDatasource)] mockStates
        = .ok [("first", .ast mockLayerAst)] ∧
    prependDatasourceExpression trivialFromExpression (some (.ast mockVisAst))
        [("mock", mockDatasource)] mockStates
      = .ok (some (.mk
          (.mk "lens_merge_tables"
            [("layerIds", [AstArg.str "first"]),
             ("tables", [AstArg.ast mockLayerAst])]
           :: mockVisAst.chain))) := by
  have hc : collectDatasourceExpressions [("mock", mockDatasource)] mockStates
      = .ok [("first", .ast mockLayerAst)] := by
    simp [collectDatasourceExpressions, mockStates, List.lookup, layerEntries,
      mockDatasource, AstOrString.isFalsy, Except.map]
  refine ⟨hc, ?_⟩
  have h := (prependDatasourceExpression_merge_shape trivialFromExpression (.ast mockVisAst)
    [("mock", mockDatasource)] mockStates [("first", .ast mockLayerAst)] hc (by simp)).1
  simpa [AstOrString.toAst] using h

/-! ## Claim C6 -/

/-- Claim C6 counterexample: a data-source map entry without a matching
state-map entry makes `prependDatasourceExpression` fail (the JavaScript
`datasourceStates[datasourceId].state` access throws a `TypeError`),
so the Composer is not exception-free on such inputs. -/
theorem prependDatasourceExpression_throws_counterexample :
    (prependDatasourceExpression trivialFromExpression (some (.ast mockVisAst))
        [("mock", mockDatasource)] ([] : List (String × DatasourceStateEntry Unit))).isOk
      = false := by
  simp [prependDatasourceExpression, collectDatasourceExpressions, List.lookup, Except.map,
    Except.isOk, Except.toBool]

/-- Helper: when every data-source identifier of the map has a state
entry, the collection loop completes. -/
theorem collectDatasourceExpressions_ok_of_covered {σ : Type}
    (datasourceMap : List (String × Datasource σ))
    (datasourceStates : List (String × DatasourceStateEntry σ))
    (hcov : ∀ p ∈ datasourceMap, (datasourceStates.lookup p.1).isSome = true) :
    ∃ exprs, collectDatasourceExpressions datasourceMap datasourceStates = .ok exprs := by
  induction datasourceMap with
  | nil => exact ⟨[], rfl⟩
  | cons hd tl ih =>
    obtain ⟨exprs, hexprs⟩ := ih fun p hp => hcov p (List.mem_cons_of_mem _ hp)
    have h1 : (datasourceStates.lookup hd.1).isSome = true :=
      hcov hd (List.mem_cons_self _ _)
    obtain ⟨entry, hentry⟩ := Option.isSome_iff_exists.mp h1
    obtain ⟨id, ds⟩ := hd
    refine ⟨layerEntries ds entry.state ++ exprs, ?_⟩
    unfold collectDatasourceExpressions
    rw [hentry, hexprs]
    rfl

/-- Claim C6 (amended): provided every data-source identifier of the
map has an entry in the state map, the Composer functions raise no
error of their own: `prependDatasourceExpression` and `buildExpression`
always yield an ordinary result (`prependKibanaContext` is total by
construction), with missing optional inputs only degrading the result
to absent. -/
theorem composer_no_throw {σ τ φ : Type} (fromExpression : String → Ast)
    (vis : Option AstOrString)
    (datasourceMap : List (String × Datasource σ))
    (datasourceStates : List (String × DatasourceStateEntry σ))
    (args : BuildExpressionArgs σ τ φ)
    (h1 : ∀ p ∈ datasourceMap, (datasourceStates.lookup p.1).isSome = true)
    (h2 : ∀ p ∈ args.datasourceMap, (args.datasourceStates.lookup p.1).isSome = true) :
    (prependDatasourceExpression fromExpression vis datasourceMap datasourceStates).isOk
      = true ∧
    (buildExpression fromExpression args).isOk = true := by
  constructor
  · obtain ⟨exprs, hexprs⟩ :=
      collectDatasourceExpressions_ok_of_covered datasourceMap datasourceStates h1
    unfold prependDatasourceExpression
    rw [hexprs]
    rfl
  · unfold buildExpression
    cases hvis : args.visualization with
    | none => rfl
    | some v =>
      obtain ⟨exprs, hexprs⟩ :=
        collectDatasourceExpressions_ok_of_covered args.datasourceMap args.datasourceStates h2
      unfold prependDatasourceExpression
      rw [hexprs]
      rfl

/-- Claim C6 witness: a covered state map yielding an ordinary result
for both functions. -/
theorem composer_no_throw_witness :
    (prependDatasourceExpression trivialFromExpression (some (.ast mockVisAst))
        [("mock", mockDatasource)] mockStates).isOk = true ∧
    (buildExpression trivialFromExpression mockBuildArgs).isOk = true := by
  have hcov : ∀ p ∈ [("mock", mockDatasource)],
      (mockStates.lookup p.1).isSome = true := by
    intro p hp
    rcases List.mem_singleton.mp hp with rfl
    rfl
  exact composer_no_throw trivialFromExpression (some (.ast mockVisAst))
    [("mock", mockDatasource)] mockStates mockBuildArgs hcov hcov

/-! ## Claim C7 -/

/-- Claim C7: every collected entry comes from a reported layer whose
requested expression was present (and truthy); and a layer for which
the data source reports no expression contributes no entry and causes
no error, leaving the remaining layers' entries unaffected — collecting
over the layer sequence with the expression-less layer removed yields
the same entries. -/
theorem layerEntries_spec {σ : Type} (ds : Datasource σ) (state : σ) :
    (∀ lid r, (lid, r) ∈ layerEntries ds state →
        lid ∈ ds.getLayers state ∧ ds.toExpression state lid = some r
          ∧ r.isFalsy = false) ∧
    (∀ (ys zs : List String) (l₀ : String),
        ds.getLayers state = ys ++ l₀ :: zs →
        ds.toExpression state l₀ = none →
        layerEntries ds state =
          (ys ++ zs).filterMap fun layerId =>
            match ds.toExpression state layerId with
            | none => none
            | some result => if result.isFalsy then none else some (layerId, result)) := by
  constructor
  · intro lid r hmem
    unfold layerEntries at hmem
    obtain ⟨a, ha, hfa⟩ := List.mem_filterMap.mp hmem
    cases hx : ds.toExpression state a with
    | none => rw [hx] at hfa; simp at hfa
    | some res =>
      rw [hx] at hfa
      by_cases hf : res.isFalsy = true
      · simp [hf] at hfa
      · simp [hf] at hfa
        obtain ⟨rfl, rfl⟩ := hfa
        exact ⟨ha, hx, by simpa using hf⟩
  · intro ys zs l₀ hlayers hnone
    unfold layerEntries
    rw [hlayers]
    simp only [List.filterMap_append, List.filterMap_cons, hnone]

/-- Claim C7 witness: the expression-less layer `missing` contributes
nothing; collecting over the remaining layers alone gives the same
entries, namely the one truthy entry. -/
theorem layerEntries_spec_witness :
    layerEntries skipDatasource () =
      (([] ++ ["first"]).filterMap fun layerId =>
        match skipDatasource.toExpression () layerId with
        | none => none
        | some result => if result.isFalsy then none else some (layerId, result)) ∧
    layerEntries skipDatasource () = [("first", .ast mockLayerAst)] := by
  have h := (layerEntries_spec skipDatasource ()).2 [] ["first"] "missing" rfl rfl
  refine ⟨h, ?_⟩
  rw [h]
  simp [skipDatasource, AstOrString.isFalsy]

/-! ## Claim C10 -/

/-- Claim C10: a data source whose layer expression is the empty
textual form behaves exactly as if it had reported no expression: the
collected entries coincide (so the empty text is never parsed and
contributes nothing to the merge node's sequences), and so do the
results of `prependDatasourceExpression` over such a data source. -/
theorem emptyExpression_skipped {σ : Type} (ds₁ ds₂ : Datasource σ)
    (hg : ds₁.getLayers = ds₂.getLayers)
    (hx : ∀ (s : σ) (l : String),
        (ds₁.toExpression s l = some (.str "") ∧ ds₂.toExpression s l = none)
        ∨ ds₁.toExpression s l = ds₂.toExpression s l) :
    (∀ state, layerEntries ds₁ state = layerEntries ds₂ state) ∧
    ∀ (fromExpression : String → Ast) (vis : Option AstOrString) (id : String)
      (datasourceStates : List (String × DatasourceStateEntry σ)),
      prependDatasourceExpression fromExpression vis [(id, ds₁)] datasourceStates
        = prependDatasourceExpression fromExpression vis [(id, ds₂)] datasourceStates := by
  have hemp : ("" : String).isEmpty = true := rfl
  have hle : ∀ state, layerEntries ds₁ state = layerEntries ds₂ state := by
    intro state
    unfold layerEntries
    rw [hg]
    apply List.filterMap_congr
    intro l hl
    rcases hx state l with ⟨h1, h2⟩ | h
    · rw [h1, h2]
      simp [AstOrString.isFalsy, hemp]
    · rw [h]
  have hcol : ∀ (id : String) (datasourceStates : List (String × DatasourceStateEntry σ)),
      collectDatasourceExpressions [(id, ds₁)] datasourceStates
        = collectDatasourceExpressions [(id, ds₂)] datasourceStates := by
    intro id datasourceStates
    simp only [collectDatasourceExpressions]
    cases hlook : datasourceStates.lookup id with
    | none => rfl
    | some entry => simp [hle]
  refine ⟨hle, ?_⟩
  intro fromExpression vis id datasourceStates
  unfold prependDatasourceExpression
  rw [hcol id datasourceStates]

/-- Claim C10 witness: the two behaviours evaluated on the concrete
empty-text and no-expression data sources. -/
theorem emptyExpression_skipped_witness :
    layerEntries emptyStringDatasource () = layerEntries absentDatasource () ∧
    prependDatasourceExpression trivialFromExpression (some (.ast mockVisAst))
        [("mock", emptyStringDatasource)] mockStates
      = prependDatasourceExpression trivialFromExpression (some (.ast mockVisAst))
        [("mock", absentDatasource)] mockStates := by
  have h := emptyExpression_skipped emptyStringDatasource absentDatasource rfl
    (fun s l => Or.inl ⟨rfl, rfl⟩)
  exact ⟨h.1 (), h.2 trivialFromExpression (some (.ast mockVisAst)) "mock" mockStates⟩

/-! ## Claim C5 -/

/-- Claim C5: with all three context parameters supplied,
`prependKibanaContext` serializes each to a single-element text
sequence, and parsing each serialized text back as structured data (by
the modelled `JSON.parse` counterpart) restores the original value. -/
theorem prependKibanaContext_roundtrip (fromExpression : String → Ast)
    (e : AstOrString) (he : e.isFalsy = false) (t q : Json) (fs : JsonList) :
    prependKibanaContext fromExpression (some e)
        { timeRange := some t, query := some q, filters := some fs }
      = some (.mk
          (.mk "kibana" [] ::
           .mk "kibana_context"
             [("timeRange", [AstArg.str t.stringify]),
              ("query", [AstArg.str q.stringify]),
              ("filters", [AstArg.str (Json.arr fs).stringify])] ::
           (e.toAst fromExpression).chain)) ∧
    Json.parse t.stringify = some t ∧
    Json.parse q.stringify = some q ∧
    Json.parse (Json.arr fs).stringify = some (Json.arr fs) := by
  refine ⟨?_, Json.parse_stringify t, Json.parse_stringify q, Json.parse_stringify _⟩
  simp [prependKibanaContext, he]

/-- Claim C5 witness: single-element serialized arguments and the
round trip, at concrete time-range, query and filter values. -/
theorem prependKibanaContext_roundtrip_witness :
    prependKibanaContext trivialFromExpression (some (.ast mockVisAst))
        { timeRange := some mockTimeRange, query := some mockQuery,
          filters := some mockFilters }
      = some (.mk
          (.mk "kibana" [] ::
           .mk "kibana_context"
             [("timeRange", [AstArg.str mockTimeRange.stringify]),
              ("query", [AstArg.str mockQuery.stringify]),
              ("filters", [AstArg.str (Json.arr mockFilters).stringify])] ::
           mockVisAst.chain)) ∧
    Json.parse mockTimeRange.stringify = some mockTimeRange ∧
    Json.parse mockQuery.stringify = some mockQuery ∧
    Json.parse (Json.arr mockFilters).stringify = some (Json.arr mockFilters) :=
  prependKibanaContext_roundtrip trivialFromExpression (.ast mockVisAst) rfl
    mockTimeRange mockQuery mockFilters
